import Mathlib

/-!
Verification of the core decision pipeline of the Yamnet violence-detection
backend: score fusion (`backend/core/score_fusion.py`), temporal trend
analysis (`backend/core/temporal_analyzer.py`), the rule-based decision
engine (`backend/core/decision_engine.py`) and the audio chunker
(`backend/utils/chunker.py`).  Numeric values are embedded as exact
rationals, Python dicts as structures with `Option` fields for optional
keys, and NumPy arrays as lists of samples.
-/

/-- Python `int()` applied to a real value: truncation toward zero. -/
def pyInt (q : ℚ) : ℤ :=
  if 0 ≤ q then ⌊q⌋ else ⌈q⌉

/-- Round-half-to-even to the nearest integer, as Python's built-in
`round` does on exact decimal values. -/
def rhe (q : ℚ) : ℤ :=
  let f := ⌊q⌋
  let r := q - f
  if r < 1/2 then f
  else if 1/2 < r then f + 1
  else if f % 2 = 0 then f else f + 1

/-- Python `round(q, n)`: round to `n` decimal digits, ties to even. -/
def roundTo (n : ℕ) (q : ℚ) : ℚ :=
  (rhe (q * 10 ^ n) : ℚ) / 10 ^ n

/-! ## Score fusion (`backend/core/score_fusion.py`) -/

/-- A fusion-weights dict; each key may be absent (`weights.get(key, default)`
in the source supplies the documented default). -/
structure Weights where
  w_acoustic : Option ℚ
  w_nlp : Option ℚ
  w_emotion : Option ℚ
deriving DecidableEq

/-- `DEFAULT_WEIGHTS` from the source: acoustic 0.5, nlp 0.3, emotion 0.2. -/
def DEFAULT_WEIGHTS : Weights :=
  ⟨some 0.5, some 0.3, some 0.2⟩

/-- The dict returned by `fuse_scores`. -/
structure FusionResult where
  fused_score : ℚ
  comp_acoustic : ℚ
  comp_nlp : ℚ
  comp_emotion : ℚ
  fusion_mode : String
  weights_used : Weights
deriving DecidableEq

/-- `fuse_scores` from `backend/core/score_fusion.py` (the `weights = None`
default is the `none` case). -/
def fuse_scores (acoustic_score nlp_score emotion_score : ℚ)
    (has_speech : Bool) (weights : Option Weights) : FusionResult :=
  let weights := match weights with
    | none => DEFAULT_WEIGHTS
    | some w => w
  let w_acoustic := weights.w_acoustic.getD 0.5
  let w_nlp := weights.w_nlp.getD 0.3
  let w_emotion := weights.w_emotion.getD 0.2
  let fused :=
    if has_speech then
      w_acoustic * acoustic_score + w_nlp * nlp_score + w_emotion * emotion_score
    else
      acoustic_score
  let fusion_mode := if has_speech then "full" else "acoustic_only"
  let fused := max 0 (min 1 fused)
  { fused_score := roundTo 4 fused
    comp_acoustic := roundTo 4 acoustic_score
    comp_nlp := if has_speech then roundTo 4 nlp_score else 0
    comp_emotion := if has_speech then roundTo 4 emotion_score else 0
    fusion_mode := fusion_mode
    weights_used := weights }

/-! ## Temporal analyzer (`backend/core/temporal_analyzer.py`) -/

/-- `WINDOW_SIZE` from the source. -/
def WINDOW_SIZE : ℕ := 5

/-- Appending one element to a `collections.deque` with `maxlen = m`:
the oldest element is evicted when the deque is full. -/
def pushMax (m : ℕ) (l : List ℚ) (x : ℚ) : List ℚ :=
  let l2 := l ++ [x]
  l2.drop (l2.length - m)

/-- The mutable state of a `TemporalAnalyzer`: the window size, the
`score_history` deque (`maxlen = window_size * 3`) and the `window` deque
(`maxlen = window_size`), oldest first. -/
structure TemporalAnalyzer where
  window_size : ℕ
  score_history : List ℚ
  window : List ℚ
deriving DecidableEq

/-- A freshly constructed `TemporalAnalyzer(window_size)`. -/
def TemporalAnalyzer.init (ws : ℕ) : TemporalAnalyzer :=
  ⟨ws, [], []⟩

/-- The dict returned by `add_score` / `analyze`. -/
structure Snapshot where
  trend : String
  escalation_score : ℚ
  prediction : String
  window_scores : List ℚ
  chunk_count : ℕ
deriving DecidableEq

/-- Python `scores[-min(n, 5):]`: the last `min n 5` elements. -/
def lastFive (scores : List ℚ) : List ℚ :=
  scores.drop (scores.length - min scores.length 5)

/-- Spike condition: `scores[-1] > 0.85 and scores[-2] < 0.4` (guarded by
`n >= 2`). -/
def isSpike (scores : List ℚ) : Bool :=
  if 2 ≤ scores.length then
    decide ((0.85 : ℚ) < scores.getD (scores.length - 1) 0 ∧
      scores.getD (scores.length - 2) 0 < (0.4 : ℚ))
  else false

/-- `sum(1 for i in range(len(recent) - 1) if recent[i + 1] > recent[i])`. -/
def increases (recent : List ℚ) : ℕ :=
  (recent.zip recent.tail).countP (fun p => decide (p.1 < p.2))

/-- Rising condition over the last `min(n, 5)` scores (guarded by `n >= 3`):
at least `len(recent) - 2` strictly increasing adjacent pairs and
`recent[-1] - recent[0] > 0.15`. -/
def isRising (scores : List ℚ) : Bool :=
  if 3 ≤ scores.length then
    let recent := lastFive scores
    if 3 ≤ recent.length then
      decide (recent.length - 2 ≤ increases recent ∧
        (0.15 : ℚ) < recent.getD (recent.length - 1) 0 - recent.getD 0 0)
    else false
  else false

/-- Sustained condition: at least 3 scores in the whole window exceed 0.5. -/
def isSustained (scores : List ℚ) : Bool :=
  decide (3 ≤ scores.countP (fun s => decide ((0.5 : ℚ) < s)))

/-- Falling condition over the last `min(n, 5)` scores (guarded by `n >= 3`):
`recent[-1] < recent[0] - 0.2`. -/
def isFalling (scores : List ℚ) : Bool :=
  if 3 ≤ scores.length then
    let recent := lastFive scores
    decide (recent.getD (recent.length - 1) 0 < recent.getD 0 0 - (0.2 : ℚ))
  else false

/-- `TemporalAnalyzer.analyze`: pure read of the current window state. -/
def TemporalAnalyzer.analyze (st : TemporalAnalyzer) : Snapshot :=
  let scores := st.window
  let n := scores.length
  if n < 2 then
    { trend := "stable"
      escalation_score := 0
      prediction := "insufficient data"
      window_scores := scores
      chunk_count := n }
  else
    let is_spike := isSpike scores
    let is_rising := isRising scores
    let is_sustained := isSustained scores
    let is_falling := isFalling scores
    let escalation_score :=
      (if is_spike then (0.4 : ℚ) else 0) +
      (if is_rising then (0.3 : ℚ) else 0) +
      (if is_sustained then (0.3 : ℚ) else 0)
    let escalation_score := min escalation_score 1
    let trend :=
      if is_spike then "spike"
      else if is_sustained then "sustained"
      else if is_rising then "rising"
      else if is_falling then "falling"
      else "stable"
    let prediction :=
      if trend = "spike" then "sudden violent event detected"
      else if trend = "rising" then "violence likely to escalate"
      else if trend = "sustained" then "ongoing violent situation"
      else if trend = "falling" then "situation de-escalating"
      else "no escalation detected"
    { trend := trend
      escalation_score := roundTo 4 escalation_score
      prediction := prediction
      window_scores := scores.map (roundTo 4)
      chunk_count := st.score_history.length }

/-- `TemporalAnalyzer.add_score`: append to both deques, then `analyze`. -/
def TemporalAnalyzer.add_score (st : TemporalAnalyzer) (score : ℚ) :
    TemporalAnalyzer × Snapshot :=
  let st' : TemporalAnalyzer :=
    ⟨st.window_size,
     pushMax (st.window_size * 3) st.score_history score,
     pushMax st.window_size st.window score⟩
  (st', st'.analyze)

/-- Feed a list of scores one at a time, keeping only the final state. -/
def TemporalAnalyzer.runAdd (st : TemporalAnalyzer) (l : List ℚ) :
    TemporalAnalyzer :=
  l.foldl (fun s x => (s.add_score x).1) st

/-- The stream of snapshots returned by successive `add_score` calls. -/
def streamSnapshots (st : TemporalAnalyzer) : List ℚ → List Snapshot
  | [] => []
  | x :: xs =>
    let r := st.add_score x
    r.2 :: streamSnapshots r.1 xs

/-- `detect_escalation` from the source: replay all scores through a fresh
analyzer and return the final result, or the fixed default on no data. -/
def detect_escalation (scores : List ℚ) : Snapshot :=
  let res := scores.foldl
    (fun (acc : TemporalAnalyzer × Option Snapshot) s =>
      let r := acc.1.add_score s
      (r.1, some r.2))
    (TemporalAnalyzer.init WINDOW_SIZE, none)
  match res.2 with
  | some r => r
  | none =>
    { trend := "stable"
      escalation_score := 0
      prediction := "no data"
      window_scores := []
      chunk_count := 0 }

/-! ## Decision engine (`backend/core/decision_engine.py`) -/

/-- Python `f"{q:.2f}"`: fixed two-decimal rendering of a score. -/
def fmt2 (q : ℚ) : String :=
  let n := rhe (q * 100)
  let sign := if n < 0 then "-" else ""
  let m := n.natAbs
  sign ++ toString (m / 100) ++ "." ++
    (if m % 100 < 10 then "0" else "") ++ toString (m % 100)

/-- The `temporal` dict as read by the decision engine: both keys are
accessed with `.get`, hence optional. -/
structure TemporalDict where
  trend : Option String
  escalation_score : Option ℚ
deriving DecidableEq

/-- One entry of `acoustic_events`; its `"class"` key is read with
`e.get("class", "unknown")`. -/
structure AcousticEvent where
  className : Option String
deriving DecidableEq

/-- `e.get("class", "unknown")`. -/
def eventClass (e : AcousticEvent) : String :=
  e.className.getD "unknown"

/-- The dict returned by `determine_chunk_alert`. -/
structure ChunkDecision where
  alert : String
  explanation : String
  reasons : List String
deriving DecidableEq

/-- `determine_chunk_alert` from `backend/core/decision_engine.py`
(the `acoustic_events = None` default behaves like the empty list). -/
def determine_chunk_alert (fused_score : ℚ) (temporal : TemporalDict)
    (acoustic_events : List AcousticEvent) (has_speech : Bool)
    (nlp_threatening : Bool) : ChunkDecision :=
  let reasons : List String := []
  let reasons := if (0.3 : ℚ) < fused_score then
      reasons ++ ["Elevated violence score (" ++ fmt2 fused_score ++ ")"]
    else reasons
  let reasons := if temporal.trend = some "spike" then
      reasons ++ ["Sudden spike in violence indicators"]
    else reasons
  let reasons := if temporal.trend = some "sustained" ∧ (0.7 : ℚ) < fused_score then
      reasons ++ ["Sustained aggression (score: " ++ fmt2 fused_score ++ ")"]
    else reasons
  let reasons := if temporal.trend = some "rising" then
      reasons ++ ["Violence indicators are rising"]
    else reasons
  let reasons := if (0.3 : ℚ) < temporal.escalation_score.getD 0 then
      reasons ++ ["Escalation detected (score: " ++
        fmt2 (temporal.escalation_score.getD 0) ++ ")"]
    else reasons
  let reasons := if acoustic_events ≠ [] then
      reasons ++ ["Violent sounds detected: " ++
        String.intercalate ", " ((acoustic_events.take 3).map eventClass)]
    else reasons
  let reasons := if nlp_threatening then
      reasons ++ ["Threatening language detected in speech"]
    else reasons
  if reasons ≠ [] then
    { alert := "Violence"
      explanation := String.intercalate "; " reasons
      reasons := reasons }
  else
    { alert := "Safe"
      explanation := "No violence indicators detected"
      reasons := [] }

/-- One entry of `chunk_results` as read by `determine_overall_alert`:
only its optional `"alert"` key is consulted (`r.get("alert", "Safe")`). -/
structure ChunkResult where
  alert : Option String
deriving DecidableEq

/-- The dict returned by `determine_overall_alert`. -/
structure OverallDecision where
  violence_detected : Bool
  overall_alert : String
  total_chunks : ℕ
  violence_chunks : ℕ
  safe_chunks : ℕ
deriving DecidableEq

/-- `determine_overall_alert` from `backend/core/decision_engine.py`. -/
def determine_overall_alert (chunk_results : List ChunkResult) :
    OverallDecision :=
  let alerts := chunk_results.map (fun r => r.alert.getD "Safe")
  let violence_count := alerts.count "Violence"
  let safe_count := alerts.count "Safe"
  if 0 < violence_count then
    { violence_detected := true
      overall_alert := "Violence"
      total_chunks := alerts.length
      violence_chunks := violence_count
      safe_chunks := safe_count }
  else
    { violence_detected := false
      overall_alert := "Safe"
      total_chunks := alerts.length
      violence_chunks := violence_count
      safe_chunks := safe_count }

/-! ## Audio chunker (`backend/utils/chunker.py`) -/

/-- `AudioChunk` from the source; the waveform is the list of samples. -/
structure AudioChunk where
  chunk_id : ℕ
  start_time : ℚ
  end_time : ℚ
  waveform : List ℚ
deriving DecidableEq, Inhabited

/-- The `while start < total_samples` loop of `chunk_audio`, with explicit
fuel (the loop advances `start` by `stride_samples` per iteration; the
caller supplies fuel `total + 1`, enough for any positive stride). -/
def chunkLoop (w : List ℚ) (chunkS strideS minS sr : ℕ) :
    ℕ → ℕ → ℕ → List AudioChunk
  | 0, _, _ => []
  | fuel + 1, chunk_id, start =>
    if start < w.length then
      if start + chunkS ≤ w.length then
        ⟨chunk_id, roundTo 3 ((start : ℚ) / sr),
          roundTo 3 (((min (start + chunkS) w.length : ℕ) : ℚ) / sr),
          (w.drop start).take chunkS⟩
          :: chunkLoop w chunkS strideS minS sr fuel (chunk_id + 1) (start + strideS)
      else
        if w.length - start < minS then []
        else
          ⟨chunk_id, roundTo 3 ((start : ℚ) / sr),
            roundTo 3 (((min (start + chunkS) w.length : ℕ) : ℚ) / sr),
            (w.drop start).take (w.length - start) ++
              List.replicate (chunkS - (w.length - start)) 0⟩
            :: chunkLoop w chunkS strideS minS sr fuel (chunk_id + 1) (start + strideS)
    else []

/-- `chunk_audio` from `backend/utils/chunker.py`.  Sample counts are the
Python `int(duration * sr)` conversions (nonnegative in every sensible
configuration; negative products truncate to zero samples here). -/
def chunk_audio (w : List ℚ) (sr : ℕ)
    (chunk_duration overlap min_chunk_duration : ℚ) : List AudioChunk :=
  let chunk_samples := (pyInt (chunk_duration * sr)).toNat
  let stride_samples := (pyInt ((chunk_duration - overlap) * sr)).toNat
  let min_samples := (pyInt (min_chunk_duration * sr)).toNat
  let total_samples := w.length
  if total_samples ≤ chunk_samples then
    let waveform_padded :=
      if total_samples < chunk_samples then
        w ++ List.replicate (chunk_samples - total_samples) 0
      else w
    [⟨0, 0, (total_samples : ℚ) / sr, waveform_padded⟩]
  else
    chunkLoop w chunk_samples stride_samples min_samples sr
      (total_samples + 1) 0 0

/-- The chunk that the loop body emits for window position `start`
(full slice when the window fits, zero-padded tail otherwise). -/
def emitAt (w : List ℚ) (chunkS sr chunk_id start : ℕ) : AudioChunk :=
  if start + chunkS ≤ w.length then
    ⟨chunk_id, roundTo 3 ((start : ℚ) / sr),
      roundTo 3 (((min (start + chunkS) w.length : ℕ) : ℚ) / sr),
      (w.drop start).take chunkS⟩
  else
    ⟨chunk_id, roundTo 3 ((start : ℚ) / sr),
      roundTo 3 (((min (start + chunkS) w.length : ℕ) : ℚ) / sr),
      (w.drop start).take (w.length - start) ++
        List.replicate (chunkS - (w.length - start)) 0⟩

/-- How many chunks the loop emits from position `start` on, when
`1 ≤ minS ≤ chunkS`: one per stride step whose remaining length is at
least `minS`. -/
def emitCount (total strideS minS start : ℕ) : ℕ :=
  if start + minS ≤ total then (total - minS - start) / strideS + 1 else 0

/-- The seven alert conditions of `determine_chunk_alert`, as the spec
enumerates them. -/
def chunkAlertConds (fused_score : ℚ) (temporal : TemporalDict)
    (acoustic_events : List AcousticEvent) (nlp_threatening : Bool) : Prop :=
  (0.3 : ℚ) < fused_score ∨
  temporal.trend = some "spike" ∨
  (temporal.trend = some "sustained" ∧ (0.7 : ℚ) < fused_score) ∨
  temporal.trend = some "rising" ∨
  (0.3 : ℚ) < temporal.escalation_score.getD 0 ∨
  acoustic_events ≠ [] ∨
  nlp_threatening = true

instance (fs : ℚ) (t : TemporalDict) (ev : List AcousticEvent) (nlp : Bool) :
    Decidable (chunkAlertConds fs t ev nlp) := by
  unfold chunkAlertConds
  infer_instance

/-! ## Helper lemmas -/

theorem rhe_intCast (n : ℤ) : rhe (n : ℚ) = n := by
  unfold rhe
  simp only [Int.floor_intCast, sub_self]
  norm_num

theorem rhe_nonneg {q : ℚ} (h : 0 ≤ q) : 0 ≤ rhe q := by
  unfold rhe
  have hf : (0 : ℤ) ≤ ⌊q⌋ := Int.floor_nonneg.mpr h
  dsimp only
  split
  · exact hf
  · split
    · omega
    · split
      · exact hf
      · omega

theorem rhe_le_of_le {q : ℚ} {n : ℤ} (h : q ≤ n) : rhe q ≤ n := by
  unfold rhe
  have hf : ⌊q⌋ ≤ n := (Int.floor_le_floor h).trans_eq (Int.floor_intCast n)
  dsimp only
  split
  · exact hf
  · rename_i hlt
    push_neg at hlt
    have hq : (⌊q⌋ : ℚ) < q := by
      by_contra hc
      push_neg at hc
      have hle := Int.floor_le q
      have hz : q - ⌊q⌋ = 0 := le_antisymm (by linarith) (by linarith)
      rw [hz] at hlt
      norm_num at hlt
    have hfn : ⌊q⌋ < n := by
      by_contra hc
      push_neg at hc
      have hcast : (n : ℚ) ≤ ⌊q⌋ := by exact_mod_cast hc
      linarith
    split
    · omega
    · split
      · exact hf
      · omega

theorem roundTo_mem_unit {q : ℚ} (h0 : 0 ≤ q) (h1 : q ≤ 1) (n : ℕ) :
    0 ≤ roundTo n q ∧ roundTo n q ≤ 1 := by
  unfold roundTo
  have hp : (0 : ℚ) < 10 ^ n := by positivity
  have hlo : 0 ≤ q * 10 ^ n := by positivity
  have hhi : q * 10 ^ n ≤ ((10 ^ n : ℤ) : ℚ) := by
    push_cast
    nlinarith
  have h1' : 0 ≤ rhe (q * 10 ^ n) := rhe_nonneg hlo
  have h2' : rhe (q * 10 ^ n) ≤ (10 ^ n : ℤ) := rhe_le_of_le hhi
  constructor
  · apply div_nonneg _ (le_of_lt hp)
    exact_mod_cast h1'
  · rw [div_le_one hp]
    exact_mod_cast h2'

/-- A rational exactly representable with `n` decimal digits is a fixed
point of `roundTo n`. -/
theorem roundTo_eq_self {n : ℕ} {q : ℚ} {m : ℤ} (h : q * 10 ^ n = m) :
    roundTo n q = q := by
  unfold roundTo
  rw [h, rhe_intCast, ← h]
  field_simp

/-! ## Claims about score fusion -/

/-- C5 (counterexample to the claim as stated): with `has_speech = false`
and acoustic score 2, the fused score is the clamped value 1, not the
acoustic score itself. -/
theorem fuse_scores_acoustic_identity_cex :
    (fuse_scores 2 0 0 false none).fused_score ≠ 2 := by
  have h1 : max 0 (min 1 (2 : ℚ)) = 1 := by norm_num
  have h2 : roundTo 4 (1 : ℚ) = 1 := roundTo_eq_self (m := 10000) (by norm_num)
  simp only [fuse_scores, Bool.false_eq_true, if_false]
  rw [h1, h2]
  norm_num

/-- C5 (amended): with `has_speech = false` the result of `fuse_scores` is
entirely independent of the nlp and emotion inputs, the fusion mode is
`"acoustic_only"`, and the fused score is the acoustic score clamped to
[0,1] and rounded to 4 decimals — in particular it equals the acoustic
score itself whenever that score lies in [0,1] and is exact at 4 decimals. -/
theorem fuse_scores_no_speech_acoustic_only (a n₁ e₁ n₂ e₂ : ℚ)
    (w : Option Weights) :
    fuse_scores a n₁ e₁ false w = fuse_scores a n₂ e₂ false w ∧
    (fuse_scores a n₁ e₁ false w).fused_score = roundTo 4 (max 0 (min 1 a)) ∧
    (fuse_scores a n₁ e₁ false w).fusion_mode = "acoustic_only" ∧
    (0 ≤ a → a ≤ 1 → roundTo 4 a = a →
      (fuse_scores a n₁ e₁ false w).fused_score = a) := by
  refine ⟨by simp [fuse_scores], by simp [fuse_scores], by simp [fuse_scores], ?_⟩
  intro h0 h1 hr
  simp only [fuse_scores, Bool.false_eq_true, if_false]
  rw [min_eq_right h1, max_eq_right h0, hr]

/-- C5 witness: acoustic 0.7, no speech — two runs with different
nlp/emotion inputs agree, the mode is `"acoustic_only"`, and the fused
score is exactly 0.7. -/
theorem fuse_scores_no_speech_acoustic_only_witness :
    fuse_scores 0.7 0.9 0.8 false none = fuse_scores 0.7 0.1 0.2 false none ∧
    (fuse_scores 0.7 0.9 0.8 false none).fused_score = 0.7 ∧
    (fuse_scores 0.7 0.9 0.8 false none).fusion_mode = "acoustic_only" := by
  obtain ⟨h1, _, h3, h4⟩ :=
    fuse_scores_no_speech_acoustic_only 0.7 0.9 0.8 0.1 0.2 none
  exact ⟨h1, h4 (by norm_num) (by norm_num)
    (roundTo_eq_self (m := 7000) (by norm_num)), h3⟩

/-- C6: for every combination of inputs, speech flag and weights map, the
fused score returned by `fuse_scores` lies in [0,1]. -/
theorem fuse_scores_fused_score_in_unit (a n e : ℚ) (hs : Bool)
    (w : Option Weights) :
    0 ≤ (fuse_scores a n e hs w).fused_score ∧
      (fuse_scores a n e hs w).fused_score ≤ 1 := by
  have key : ∀ x : ℚ, 0 ≤ roundTo 4 (max 0 (min 1 x)) ∧
      roundTo 4 (max 0 (min 1 x)) ≤ 1 := fun x =>
    roundTo_mem_unit (le_max_left 0 _) (max_le zero_le_one (min_le_left 1 _)) 4
  simp only [fuse_scores]
  exact key _

/-! ## Claims about the decision engine -/

/-- C3 (counterexample to the claim as stated): the fixed safe explanation
produced by the code is `"No violence indicators detected"`, capitalised,
not the claimed lowercase `"no violence indicators detected"`. -/
theorem determine_chunk_alert_explanation_cex :
    (determine_chunk_alert 0 ⟨none, none⟩ [] false false).explanation ≠
      "no violence indicators detected" := by
  have h1 : ¬ ((0.3 : ℚ) < 0) := by norm_num
  have hsafe : (determine_chunk_alert 0 ⟨none, none⟩ [] false false).explanation =
      "No violence indicators detected" := by
    simp [determine_chunk_alert, h1]
  rw [hsafe]
  decide

set_option maxHeartbeats 1000000 in
/-- C3 (amended): the alert is `"Violence"` iff at least one of the seven
rule conditions holds; every matching rule contributes exactly one reason
and the explanation joins the reasons with `"; "`; otherwise the alert is
`"Safe"` with empty reasons and the fixed explanation
`"No violence indicators detected"` (capitalised, as the code writes it). -/
theorem determine_chunk_alert_spec (fs : ℚ) (t : TemporalDict)
    (ev : List AcousticEvent) (hs nlp : Bool) :
    ((determine_chunk_alert fs t ev hs nlp).alert = "Violence" ↔
      chunkAlertConds fs t ev nlp) ∧
    (determine_chunk_alert fs t ev hs nlp).reasons.length =
      ((if (0.3 : ℚ) < fs then 1 else 0) +
       (if t.trend = some "spike" then 1 else 0) +
       (if t.trend = some "sustained" ∧ (0.7 : ℚ) < fs then 1 else 0) +
       (if t.trend = some "rising" then 1 else 0) +
       (if (0.3 : ℚ) < t.escalation_score.getD 0 then 1 else 0) +
       (if ev ≠ [] then 1 else 0) +
       (if nlp = true then 1 else 0)) ∧
    ((determine_chunk_alert fs t ev hs nlp).alert = "Violence" →
      (determine_chunk_alert fs t ev hs nlp).reasons ≠ [] ∧
      (determine_chunk_alert fs t ev hs nlp).explanation =
        String.intercalate "; " (determine_chunk_alert fs t ev hs nlp).reasons) ∧
    (¬ chunkAlertConds fs t ev nlp →
      (determine_chunk_alert fs t ev hs nlp).alert = "Safe" ∧
      (determine_chunk_alert fs t ev hs nlp).reasons = [] ∧
      (determine_chunk_alert fs t ev hs nlp).explanation =
        "No violence indicators detected") := by
  unfold determine_chunk_alert chunkAlertConds
  split_ifs <;> simp_all

/-- C3 witness: a single acoustic event with fused score 0 already yields
`"Violence"`, while an all-clear input yields `"Safe"`. -/
theorem determine_chunk_alert_spec_witness :
    (determine_chunk_alert 0 ⟨none, none⟩ [⟨some "Gunshot"⟩] false false).alert =
      "Violence" ∧
    (determine_chunk_alert 0 ⟨none, none⟩ [] false false).alert = "Safe" := by
  constructor
  · exact (determine_chunk_alert_spec 0 ⟨none, none⟩ [⟨some "Gunshot"⟩]
      false false).1.mpr
      (Or.inr (Or.inr (Or.inr (Or.inr (Or.inr (Or.inl (List.cons_ne_nil _ _)))))))
  · refine ((determine_chunk_alert_spec 0 ⟨none, none⟩ [] false false).2.2.2 ?_).1
    intro h
    unfold chunkAlertConds at h
    rcases h with h | h | ⟨h, _⟩ | h | h | h | h
    · norm_num at h
    · exact Option.noConfusion h
    · exact Option.noConfusion h
    · exact Option.noConfusion h
    · rw [Option.getD_none] at h
      norm_num at h
    · simp at h
    · simp at h

/-- C4: the overall alert is `"Violence"` (with `violence_detected` set) iff
some chunk's alert is `"Violence"`; `total_chunks` is the number of chunk
results and the violence/safe counters count the respective alerts. -/
theorem determine_overall_alert_spec (rs : List ChunkResult) :
    ((determine_overall_alert rs).overall_alert = "Violence" ∧
      (determine_overall_alert rs).violence_detected = true ↔
      "Violence" ∈ rs.map (fun r => r.alert.getD "Safe")) ∧
    (determine_overall_alert rs).total_chunks = rs.length ∧
    (determine_overall_alert rs).violence_chunks =
      (rs.map (fun r => r.alert.getD "Safe")).count "Violence" ∧
    (determine_overall_alert rs).safe_chunks =
      (rs.map (fun r => r.alert.getD "Safe")).count "Safe" := by
  simp only [determine_overall_alert]
  split_ifs with h
  · simp_all [List.count_pos_iff]
  · simp_all [List.count_pos_iff]

/-! ## Claims about the temporal analyzer -/

theorem pushMax_length (m : ℕ) (l : List ℚ) (x : ℚ) :
    (pushMax m l x).length = min (l.length + 1) m := by
  simp [pushMax]
  omega

theorem runAdd_nil (st : TemporalAnalyzer) : st.runAdd [] = st := rfl

theorem runAdd_cons (st : TemporalAnalyzer) (x : ℚ) (xs : List ℚ) :
    st.runAdd (x :: xs) = ((st.add_score x).1).runAdd xs := rfl

theorem runAdd_invariants (l : List ℚ) :
    ∀ st : TemporalAnalyzer,
      st.score_history.length ≤ st.window_size * 3 →
      st.window.length ≤ st.window_size →
      (st.runAdd l).window_size = st.window_size ∧
      (st.runAdd l).score_history.length =
        min (st.score_history.length + l.length) (st.window_size * 3) ∧
      (st.runAdd l).window.length =
        min (st.window.length + l.length) st.window_size := by
  induction l with
  | nil =>
    intro st hh hw
    simp only [runAdd_nil, List.length_nil, Nat.add_zero]
    exact ⟨by trivial, by omega, by omega⟩
  | cons x xs ih =>
    intro st hh hw
    rw [runAdd_cons]
    have hstep : (st.add_score x).1 =
        ⟨st.window_size, pushMax (st.window_size * 3) st.score_history x,
          pushMax st.window_size st.window x⟩ := rfl
    obtain ⟨h1, h2, h3⟩ := ih (st.add_score x).1
      (by rw [hstep]; simp only [pushMax_length]; omega)
      (by rw [hstep]; simp only [pushMax_length]; omega)
    rw [hstep] at h1 h2 h3
    simp only [pushMax_length] at h2 h3
    refine ⟨h1, ?_, ?_⟩ <;> simp_all <;> omega

/-- The `chunk_count` reported by one `add_score` on an arbitrary state:
the new window length while below 2, the new history length afterwards. -/
theorem add_score_chunk_count_of (st : TemporalAnalyzer) (s : ℚ) :
    (st.add_score s).2.chunk_count =
      if min (st.window.length + 1) st.window_size < 2
      then min (st.window.length + 1) st.window_size
      else min (st.score_history.length + 1) (st.window_size * 3) := by
  simp only [TemporalAnalyzer.add_score, TemporalAnalyzer.analyze, pushMax_length]
  split
  · rfl
  · rfl

/-- Closed form for the `chunk_count` reported by the `add_score` following
`l.length` earlier insertions into a fresh analyzer of any window size. -/
theorem add_score_chunk_count_closed (ws : ℕ) (l : List ℚ) (s : ℚ) :
    (((TemporalAnalyzer.init ws).runAdd l).add_score s).2.chunk_count =
      if min (l.length + 1) ws < 2 then min (l.length + 1) ws
      else min (l.length + 1) (ws * 3) := by
  obtain ⟨h1, h2, h3⟩ := runAdd_invariants l (TemporalAnalyzer.init ws)
    (by simp [TemporalAnalyzer.init]) (by simp [TemporalAnalyzer.init])
  rw [add_score_chunk_count_of, h1, h2, h3]
  simp only [TemporalAnalyzer.init, List.length_nil, Nat.zero_add]
  split_ifs <;> omega

/-- C1 (counterexample to the claim as stated): after 16 insertions into a
fresh default analyzer (window size 5), the 16th `add_score` reports
`chunk_count = 15`, not 16: the history deque saturates at
`3 × window_size`. -/
theorem chunk_count_total_cex :
    (((TemporalAnalyzer.init 5).runAdd (List.replicate 15 0)).add_score 0).2.chunk_count
      ≠ 16 := by
  rw [add_score_chunk_count_closed]
  simp

/-- C1 (amended): for every fresh analyzer with `window_size ≥ 2` and every
sequence of insertions, the snapshot returned by each `add_score` reports
`chunk_count = min(total scores added so far, 3 × window_size)` — the total
count until the bounded history deque saturates. -/
theorem add_score_chunk_count (ws : ℕ) (hws : 2 ≤ ws) (l : List ℚ) (s : ℚ) :
    (((TemporalAnalyzer.init ws).runAdd l).add_score s).2.chunk_count =
      min (l.length + 1) (ws * 3) := by
  rw [add_score_chunk_count_closed]
  split
  · omega
  · rfl

/-- C1 witness: the 16th insertion into a fresh default analyzer reports
`chunk_count = min 16 15 = 15`. -/
theorem add_score_chunk_count_witness :
    (((TemporalAnalyzer.init 5).runAdd (List.replicate 15 0)).add_score 0).2.chunk_count
      = min (15 + 1) (5 * 3) := by
  have h := add_score_chunk_count 5 (by norm_num) (List.replicate 15 0) 0
  simpa using h

/-- C2: with at least two scores in the window, `analyze` reports the single
trend label fixed by the priority spike > sustained > rising > falling >
stable, whichever boolean conditions hold simultaneously. -/
theorem analyze_trend_priority (st : TemporalAnalyzer)
    (h : 2 ≤ st.window.length) :
    (isSpike st.window = true → st.analyze.trend = "spike") ∧
    (isSpike st.window = false → isSustained st.window = true →
      st.analyze.trend = "sustained") ∧
    (isSpike st.window = false → isSustained st.window = false →
      isRising st.window = true → st.analyze.trend = "rising") ∧
    (isSpike st.window = false → isSustained st.window = false →
      isRising st.window = false → isFalling st.window = true →
      st.analyze.trend = "falling") ∧
    (isSpike st.window = false → isSustained st.window = false →
      isRising st.window = false → isFalling st.window = false →
      st.analyze.trend = "stable") := by
  simp only [TemporalAnalyzer.analyze]
  rw [if_neg (by omega)]
  refine ⟨?_, ?_, ?_, ?_, ?_⟩ <;> intros <;> simp_all

/-- C2 witness: on the window [0.6, 0.6, 0.3, 0.3, 0.9] both the spike and
the sustained conditions hold, and the reported trend is `"spike"`. -/
theorem analyze_trend_priority_witness :
    isSpike [0.6, 0.6, 0.3, 0.3, 0.9] = true ∧
    isSustained [0.6, 0.6, 0.3, 0.3, 0.9] = true ∧
    (TemporalAnalyzer.analyze
      ⟨5, [0.6, 0.6, 0.3, 0.3, 0.9], [0.6, 0.6, 0.3, 0.3, 0.9]⟩).trend =
      "spike" := by
  have hs : isSpike [0.6, 0.6, 0.3, 0.3, 0.9] = true := by
    norm_num [isSpike]
  have hsu : isSustained [0.6, 0.6, 0.3, 0.3, 0.9] = true := by
    norm_num [isSustained, List.countP_cons]
  exact ⟨hs, hsu,
    (analyze_trend_priority ⟨5, [0.6, 0.6, 0.3, 0.3, 0.9],
      [0.6, 0.6, 0.3, 0.3, 0.9]⟩ (by norm_num)).1 hs⟩

theorem detectFold_eq_getLastD (l : List ℚ) :
    ∀ (st : TemporalAnalyzer) (r0 : Snapshot),
      (l.foldl (fun (acc : TemporalAnalyzer × Option Snapshot) s =>
          let r := acc.1.add_score s
          (r.1, some r.2)) (st, some r0)).2 =
        some ((streamSnapshots st l).getLastD r0) := by
  induction l with
  | nil =>
    intro st r0
    simp [streamSnapshots]
  | cons x xs ih =>
    intro st r0
    rw [List.foldl_cons]
    simp only [streamSnapshots, List.getLastD_cons]
    exact ih (st.add_score x).1 (st.add_score x).2

/-- C7: for a non-empty score list, `detect_escalation` returns exactly the
snapshot of the final `add_score` when the same scores are fed one at a
time into a fresh default analyzer. -/
theorem detect_escalation_eq_final_snapshot (scores : List ℚ)
    (h : scores ≠ []) :
    (streamSnapshots (TemporalAnalyzer.init WINDOW_SIZE) scores).getLast? =
      some (detect_escalation scores) := by
  cases scores with
  | nil => exact absurd rfl h
  | cons x xs =>
    simp only [detect_escalation, List.foldl_cons, streamSnapshots,
      List.getLast?_cons, ← List.getLastD_eq_getLast?]
    rw [detectFold_eq_getLastD xs]

/-- C7 witness: replaying [0.1, 0.9] through a fresh analyzer ends in the
snapshot that `detect_escalation` returns. -/
theorem detect_escalation_eq_final_snapshot_witness :
    ([(0.1 : ℚ), 0.9] ≠ []) ∧
    (streamSnapshots (TemporalAnalyzer.init WINDOW_SIZE)
        [(0.1 : ℚ), 0.9]).getLast? =
      some (detect_escalation [(0.1 : ℚ), 0.9]) :=
  ⟨by simp, detect_escalation_eq_final_snapshot [(0.1 : ℚ), 0.9] (by simp)⟩

/-! ## Claims about the chunker -/

theorem pyInt_intCast (n : ℤ) : pyInt (n : ℚ) = n := by
  unfold pyInt
  split
  · exact Int.floor_intCast n
  · exact Int.ceil_intCast n

/-- C8: a waveform no longer than one chunk yields exactly one chunk with
id 0, start time 0, end time the true duration, and a right-zero-padded
waveform of canonical length. -/
theorem chunk_audio_short (w : List ℚ) (sr : ℕ) (cd ov md : ℚ)
    (hsr : 0 < sr)
    (hlen : w.length ≤ (pyInt (cd * sr)).toNat) :
    chunk_audio w sr cd ov md =
      [⟨0, 0, (w.length : ℚ) / sr,
        w ++ List.replicate ((pyInt (cd * sr)).toNat - w.length) 0⟩] := by
  simp only [chunk_audio]
  rw [if_pos hlen]
  by_cases h : w.length < (pyInt (cd * sr)).toNat
  · rw [if_pos h]
  · rw [if_neg h]
    have hz : (pyInt (cd * sr)).toNat - w.length = 0 := by omega
    rw [hz]
    simp

/-- C8 witness: a 2-sample waveform at the default parameters becomes one
chunk of 40000 samples covering [0, 2/16000]. -/
theorem chunk_audio_short_witness :
    chunk_audio [(0.5 : ℚ), 0.5] 16000 (5/2) (1/2) 1 =
      [⟨0, 0, (([(0.5 : ℚ), 0.5].length : ℚ)) / (16000 : ℕ),
        [(0.5 : ℚ), 0.5] ++
          List.replicate ((pyInt ((5/2 : ℚ) * (16000 : ℕ))).toNat - 2) 0⟩] := by
  have h40 : pyInt ((5/2 : ℚ) * (16000 : ℕ)) = 40000 := by
    rw [show (5/2 : ℚ) * ((16000 : ℕ) : ℚ) = ((40000 : ℤ) : ℚ) by norm_num]
    exact pyInt_intCast 40000
  exact chunk_audio_short [(0.5 : ℚ), 0.5] 16000 (5/2) (1/2) 1 (by norm_num)
    (by rw [h40]; norm_num)

theorem chunkLoop_waveform_length (w : List ℚ) (chunkS strideS minS sr : ℕ) :
    ∀ (fuel chunk_id start : ℕ) (c : AudioChunk),
      c ∈ chunkLoop w chunkS strideS minS sr fuel chunk_id start →
      c.waveform.length = chunkS := by
  intro fuel
  induction fuel with
  | zero =>
    intro cid start c hc
    simp [chunkLoop] at hc
  | succ fuel ih =>
    intro cid start c hc
    simp only [chunkLoop] at hc
    by_cases h1 : start < w.length
    · rw [if_pos h1] at hc
      by_cases h2 : start + chunkS ≤ w.length
      · rw [if_pos h2] at hc
        rcases List.mem_cons.mp hc with hc | hc
        · subst hc
          simp only [List.length_take, List.length_drop]
          omega
        · exact ih _ _ _ hc
      · rw [if_neg h2] at hc
        by_cases h3 : w.length - start < minS
        · rw [if_pos h3] at hc
          simp at hc
        · rw [if_neg h3] at hc
          rcases List.mem_cons.mp hc with hc | hc
          · subst hc
            simp only [List.length_append, List.length_take, List.length_drop,
              List.length_replicate]
            omega
          · exact ih _ _ _ hc
    · rw [if_neg h1] at hc
      simp at hc

/-- C10: every chunk emitted by `chunk_audio` — short-input, full, or
zero-padded final — has a waveform of exactly `int(chunk_duration × sr)`
samples (stated for nonnegative canonical length, the only case in which
the Python `int()` value is a sample count). -/
theorem chunk_audio_waveform_length (w : List ℚ) (sr : ℕ) (cd ov md : ℚ)
    (h : 0 ≤ cd * (sr : ℚ)) :
    ∀ c ∈ chunk_audio w sr cd ov md,
      (c.waveform.length : ℤ) = pyInt (cd * sr) := by
  have hnn : 0 ≤ pyInt (cd * sr) := by
    unfold pyInt
    rw [if_pos h]
    exact Int.floor_nonneg.mpr h
  have hk : (((pyInt (cd * sr)).toNat : ℕ) : ℤ) = pyInt (cd * sr) :=
    Int.toNat_of_nonneg hnn
  intro c hc
  suffices hlen : c.waveform.length = (pyInt (cd * sr)).toNat by
    rw [hlen, hk]
  simp only [chunk_audio] at hc
  by_cases hshort : w.length ≤ (pyInt (cd * sr)).toNat
  · rw [if_pos hshort] at hc
    by_cases hpad : w.length < (pyInt (cd * sr)).toNat
    · rw [if_pos hpad] at hc
      simp only [List.mem_singleton] at hc
      subst hc
      simp only [List.length_append, List.length_replicate]
      omega
    · rw [if_neg hpad] at hc
      simp only [List.mem_singleton] at hc
      subst hc
      simp only
      omega
  · rw [if_neg hshort] at hc
    exact chunkLoop_waveform_length w _ _ _ sr _ _ _ c hc

/-- C10 witness: the single chunk produced for an empty waveform at unit
parameters has exactly `int(1 × 1) = 1` sample. -/
theorem chunk_audio_waveform_length_witness :
    ((0 : ℚ) ≤ 1 * ((1 : ℕ) : ℚ)) ∧
    ((( ⟨0, 0, 0, [0]⟩ : AudioChunk).waveform.length : ℤ) =
      pyInt (1 * ((1 : ℕ) : ℚ))) := by
  have h1 : pyInt ((1 : ℚ) * ((1 : ℕ) : ℚ)) = 1 := by
    rw [show (1 : ℚ) * ((1 : ℕ) : ℚ) = ((1 : ℤ) : ℚ) by norm_num]
    exact pyInt_intCast 1
  have heval : chunk_audio [] 1 1 0 1 = [⟨0, 0, 0, [0]⟩] := by
    norm_num [chunk_audio, pyInt, Int.floor_one]
  refine ⟨by norm_num, ?_⟩
  exact chunk_audio_waveform_length [] 1 1 0 1 (by norm_num) ⟨0, 0, 0, [0]⟩
    (by rw [heval]; exact List.mem_singleton.mpr rfl)

theorem chunkLoop_closed (w : List ℚ) (chunkS strideS minS sr : ℕ)
    (hminpos : 1 ≤ minS) (hminle : minS ≤ chunkS) (hstride : 1 ≤ strideS) :
    ∀ (fuel start chunk_id : ℕ), w.length - start < fuel →
      chunkLoop w chunkS strideS minS sr fuel chunk_id start =
        (List.range (emitCount w.length strideS minS start)).map
          (fun j => emitAt w chunkS sr (chunk_id + j) (start + j * strideS)) := by
  intro fuel
  induction fuel with
  | zero =>
    intro start cid hf
    omega
  | succ fuel ih =>
    intro start cid hf
    by_cases h1 : start < w.length
    · by_cases hemit : start + minS ≤ w.length
      · -- one chunk emitted, then recurse
        have hcnt : emitCount w.length strideS minS start =
            emitCount w.length strideS minS (start + strideS) + 1 := by
          unfold emitCount
          rw [if_pos hemit]
          by_cases h2 : start + strideS + minS ≤ w.length
          · rw [if_pos h2]
            have h3 : strideS ≤ w.length - minS - start := by omega
            rw [Nat.div_eq_sub_div (by omega) h3]
            have harg : w.length - minS - start - strideS =
                w.length - minS - (start + strideS) := by omega
            rw [harg]
          · rw [if_neg h2]
            have hlt : w.length - minS - (start + strideS) + strideS < strideS + strideS := by
              omega
            have : w.length - minS - start < strideS := by omega
            rw [Nat.div_eq_of_lt this]
        rw [hcnt, List.range_succ_eq_map]
        have hrec := ih (start + strideS) (cid + 1) (by omega)
        simp only [chunkLoop]
        rw [if_pos h1]
        by_cases h2 : start + chunkS ≤ w.length
        · rw [if_pos h2, hrec]
          simp only [List.map_cons, List.map_map]
          congr 1
          · simp only [Nat.add_zero, Nat.zero_mul]
            unfold emitAt
            rw [if_pos h2]
          · have hfeq : (fun j => emitAt w chunkS sr (cid + 1 + j)
                (start + strideS + j * strideS)) =
                ((fun j => emitAt w chunkS sr (cid + j) (start + j * strideS)) ∘
                  Nat.succ) := by
              funext j
              simp only [Function.comp_apply, Nat.succ_eq_add_one]
              have e1 : cid + (j + 1) = cid + 1 + j := by omega
              have e2 : start + (j + 1) * strideS = start + strideS + j * strideS := by
                ring
              rw [e1, e2]
            rw [hfeq]
        · rw [if_neg h2]
          rw [if_neg (show ¬ (w.length - start < minS) by omega)]
          rw [hrec]
          simp only [List.map_cons, List.map_map]
          congr 1
          · simp only [Nat.add_zero, Nat.zero_mul]
            unfold emitAt
            rw [if_neg (show ¬ (start + chunkS ≤ w.length) from h2)]
          · have hfeq : (fun j => emitAt w chunkS sr (cid + 1 + j)
                (start + strideS + j * strideS)) =
                ((fun j => emitAt w chunkS sr (cid + j) (start + j * strideS)) ∘
                  Nat.succ) := by
              funext j
              simp only [Function.comp_apply, Nat.succ_eq_add_one]
              have e1 : cid + (j + 1) = cid + 1 + j := by omega
              have e2 : start + (j + 1) * strideS = start + strideS + j * strideS := by
                ring
              rw [e1, e2]
            rw [hfeq]
      · -- nothing emitted
        have hcnt : emitCount w.length strideS minS start = 0 := by
          unfold emitCount
          rw [if_neg hemit]
        rw [hcnt]
        simp only [chunkLoop]
        rw [if_pos h1]
        rw [if_neg (show ¬ (start + chunkS ≤ w.length) by omega)]
        rw [if_pos (show w.length - start < minS by omega)]
        simp
    · have hcnt : emitCount w.length strideS minS start = 0 := by
        unfold emitCount
        rw [if_neg (by omega)]
      rw [hcnt]
      simp only [chunkLoop]
      rw [if_neg h1]
      simp

theorem emitAt_chunk_id (w : List ℚ) (cS sr cid st : ℕ) :
    (emitAt w cS sr cid st).chunk_id = cid := by
  unfold emitAt
  split <;> rfl

theorem emitAt_start_time (w : List ℚ) (cS sr cid st : ℕ) :
    (emitAt w cS sr cid st).start_time = roundTo 3 ((st : ℚ) / sr) := by
  unfold emitAt
  split <;> rfl

theorem emitAt_end_time (w : List ℚ) (cS sr cid st : ℕ) :
    (emitAt w cS sr cid st).end_time =
      roundTo 3 (((min (st + cS) w.length : ℕ) : ℚ) / sr) := by
  unfold emitAt
  split <;> rfl

theorem emitAt_waveform (w : List ℚ) (cS sr cid st : ℕ) :
    (emitAt w cS sr cid st).waveform =
      if st + cS ≤ w.length then (w.drop st).take cS
      else (w.drop st).take (w.length - st) ++
        List.replicate (cS - (w.length - st)) 0 := by
  unfold emitAt
  split <;> rfl

theorem start_time_val (j : ℕ) :
    roundTo 3 (((j * 32000 : ℕ) : ℚ) / ((16000 : ℕ) : ℚ)) = 2 * j := by
  have hq : ((j * 32000 : ℕ) : ℚ) / ((16000 : ℕ) : ℚ) = 2 * (j : ℚ) := by
    push_cast
    field_simp
    ring
  rw [hq]
  exact roundTo_eq_self (m := 2000 * j) (by push_cast; ring)

theorem end_time_val (j : ℕ) :
    roundTo 3 (((j * 32000 + 40000 : ℕ) : ℚ) / ((16000 : ℕ) : ℚ)) =
      2 * j + 5 / 2 := by
  have hq : ((j * 32000 + 40000 : ℕ) : ℚ) / ((16000 : ℕ) : ℚ) =
      2 * (j : ℚ) + 5 / 2 := by
    push_cast
    field_simp
    ring
  rw [hq]
  exact roundTo_eq_self (m := 2000 * j + 2500) (by push_cast; ring)

theorem chunk_audio_default_eq (w : List ℚ) (hw : 40000 < w.length) :
    chunk_audio w 16000 (5/2) (1/2) 1 =
      (List.range (emitCount w.length 32000 16000 0)).map
        (fun j => emitAt w 40000 16000 j (j * 32000)) := by
  have h40 : (pyInt ((5/2 : ℚ) * ((16000 : ℕ) : ℚ))).toNat = 40000 := by
    rw [show (5/2 : ℚ) * ((16000 : ℕ) : ℚ) = ((40000 : ℤ) : ℚ) by norm_num,
      pyInt_intCast]
    rfl
  have h32 : (pyInt (((5/2 : ℚ) - 1/2) * ((16000 : ℕ) : ℚ))).toNat = 32000 := by
    rw [show ((5/2 : ℚ) - 1/2) * ((16000 : ℕ) : ℚ) = ((32000 : ℤ) : ℚ) by norm_num,
      pyInt_intCast]
    rfl
  have h16 : (pyInt ((1 : ℚ) * ((16000 : ℕ) : ℚ))).toNat = 16000 := by
    rw [show (1 : ℚ) * ((16000 : ℕ) : ℚ) = ((16000 : ℤ) : ℚ) by norm_num,
      pyInt_intCast]
    rfl
  simp only [chunk_audio, h40, h32, h16]
  rw [if_neg (by omega)]
  rw [chunkLoop_closed w 40000 32000 16000 16000 (by norm_num) (by norm_num)
    (by norm_num) (w.length + 1) 0 0 (by omega)]
  congr 1
  funext j
  simp only [Nat.zero_add]

theorem emitCount_default_iff (total k : ℕ) :
    k < emitCount total 32000 16000 0 ↔ 32000 * k + 16000 ≤ total := by
  unfold emitCount
  split <;> omega

/-- C9: at the default parameters (sr 16000, chunk 2.5 s, overlap 0.5 s,
min chunk 1.0 s), for every waveform longer than one chunk: consecutive
start times increase by exactly the stride `chunk_duration - overlap` = 2 s;
each non-final chunk overlaps the next by exactly 0.5 s; chunk ids are
0..N-1 in emission order; window position k is emitted iff its remaining
length is at least the minimum (so the final partial window is zero-padded
when long enough and discarded otherwise); and each emitted chunk's
waveform is the corresponding full slice or zero-padded tail slice. -/
theorem chunk_audio_default_spec (w : List ℚ) (hw : 40000 < w.length) :
    (∀ i, i + 1 < (chunk_audio w 16000 (5/2) (1/2) 1).length →
      ((chunk_audio w 16000 (5/2) (1/2) 1).getD (i+1) default).start_time =
        ((chunk_audio w 16000 (5/2) (1/2) 1).getD i default).start_time +
          (5/2 - 1/2)) ∧
    (∀ i, i + 1 < (chunk_audio w 16000 (5/2) (1/2) 1).length →
      ((chunk_audio w 16000 (5/2) (1/2) 1).getD i default).end_time -
        ((chunk_audio w 16000 (5/2) (1/2) 1).getD (i+1) default).start_time =
          1/2) ∧
    (∀ i, i < (chunk_audio w 16000 (5/2) (1/2) 1).length →
      ((chunk_audio w 16000 (5/2) (1/2) 1).getD i default).chunk_id = i) ∧
    (∀ k, 32000 * k + 16000 ≤ w.length ↔
      k < (chunk_audio w 16000 (5/2) (1/2) 1).length) ∧
    (∀ i, i < (chunk_audio w 16000 (5/2) (1/2) 1).length →
      ((chunk_audio w 16000 (5/2) (1/2) 1).getD i default).waveform =
        if 32000 * i + 40000 ≤ w.length then (w.drop (32000 * i)).take 40000
        else (w.drop (32000 * i)).take (w.length - 32000 * i) ++
          List.replicate (40000 - (w.length - 32000 * i)) 0) := by
  have heq := chunk_audio_default_eq w hw
  have hlen : (chunk_audio w 16000 (5/2) (1/2) 1).length =
      emitCount w.length 32000 16000 0 := by
    rw [heq]
    simp
  have hget : ∀ i, i < emitCount w.length 32000 16000 0 →
      (chunk_audio w 16000 (5/2) (1/2) 1).getD i default =
        emitAt w 40000 16000 i (i * 32000) := by
    intro i hi
    rw [heq, List.getD_eq_getElem _ _ (by simpa using hi)]
    simp
  have hfull : ∀ i, i + 1 < emitCount w.length 32000 16000 0 →
      32000 * i + 40000 ≤ w.length := by
    intro i h
    have := (emitCount_default_iff w.length (i+1)).mp h
    omega
  refine ⟨?_, ?_, ?_, ?_, ?_⟩
  · intro i h
    rw [hlen] at h
    rw [hget (i+1) (by omega), hget i (by omega), emitAt_start_time,
      emitAt_start_time, start_time_val, start_time_val]
    push_cast
    ring
  · intro i h
    rw [hlen] at h
    have hf : 32000 * i + 40000 ≤ w.length := hfull i h
    rw [hget i (by omega), hget (i+1) (by omega), emitAt_end_time,
      emitAt_start_time]
    have hmin : min (i * 32000 + 40000) w.length = i * 32000 + 40000 :=
      min_eq_left (by omega)
    rw [hmin, end_time_val, start_time_val]
    push_cast
    ring
  · intro i h
    rw [hlen] at h
    rw [hget i h, emitAt_chunk_id]
  · intro k
    rw [hlen]
    exact (emitCount_default_iff w.length k).symm
  · intro i h
    rw [hlen] at h
    rw [hget i h, emitAt_waveform]
    have hcomm : i * 32000 = 32000 * i := by ring
    rw [hcomm]

/-- C9 witness: at the defaults, a 100000-sample waveform passes the
length precondition; window position 2 (the zero-padded final chunk,
remaining 36000 samples >= 16000) is emitted with chunk id 2. -/
theorem chunk_audio_default_spec_witness :
    40000 < (List.replicate 100000 (0 : ℚ)).length ∧
    2 < (chunk_audio (List.replicate 100000 (0 : ℚ)) 16000 (5/2) (1/2) 1).length ∧
    ((chunk_audio (List.replicate 100000 (0 : ℚ)) 16000 (5/2) (1/2) 1).getD 2
      default).chunk_id = 2 := by
  have hw : 40000 < (List.replicate 100000 (0 : ℚ)).length := by
    rw [List.length_replicate]
    norm_num
  obtain ⟨h1, h2, h3, h4, h5⟩ :=
    chunk_audio_default_spec (List.replicate 100000 (0 : ℚ)) hw
  have hlen2 : 2 < (chunk_audio (List.replicate 100000 (0 : ℚ))
      16000 (5/2) (1/2) 1).length := (h4 2).mp (by
    rw [List.length_replicate]
    norm_num)
  exact ⟨hw, hlen2, h3 2 hlen2⟩

/-- C4 witness: chunk alerts [Safe, Violence, Violence, Safe] give overall
`"Violence"` with two violence chunks and two safe chunks. -/
theorem determine_overall_alert_spec_witness :
    (determine_overall_alert
        [⟨some "Safe"⟩, ⟨some "Violence"⟩, ⟨some "Violence"⟩, ⟨some "Safe"⟩]).overall_alert =
      "Violence" ∧
    (determine_overall_alert
        [⟨some "Safe"⟩, ⟨some "Violence"⟩, ⟨some "Violence"⟩, ⟨some "Safe"⟩]).total_chunks = 4 ∧
    (determine_overall_alert
        [⟨some "Safe"⟩, ⟨some "Violence"⟩, ⟨some "Violence"⟩, ⟨some "Safe"⟩]).violence_chunks = 2 ∧
    (determine_overall_alert
        [⟨some "Safe"⟩, ⟨some "Violence"⟩, ⟨some "Violence"⟩, ⟨some "Safe"⟩]).safe_chunks = 2 := by
  obtain ⟨h1, h2, h3, h4⟩ := determine_overall_alert_spec
    [⟨some "Safe"⟩, ⟨some "Violence"⟩, ⟨some "Violence"⟩, ⟨some "Safe"⟩]
  refine ⟨(h1.mpr (by decide)).1, h2.trans (by decide), h3.trans (by decide),
    h4.trans (by decide)⟩
